import Mathlib

/-!
Verification development for the rom-properties disc/partition layer.

Definitions are shallow embeddings of the C++ sources (NCCHReader_p.hpp,
GcnPartition.hpp, NEResourceReader.hpp, RomFields.cpp).  Where only a
declaration is available in the sources, the behaviour is modelled from the
specification, and the doc comment of the definition says so.
-/

/-! ## EncSection (NCCHReader_p.hpp, NCCHReaderPrivate::EncSection) -/

/-- Embeds `NCCHReaderPrivate::EncSection` (NCCHReader_p.hpp lines 123-146):
`{uint32_t address; uint32_t ctr_base; uint32_t length; uint8_t keyIdx; uint8_t section;}`.
All machine integers are represented as `Nat`; the fields involved in the
claims never overflow their C types in the scenarios considered. -/
structure EncSection where
  address : Nat
  ctr_base : Nat
  length : Nat
  keyIdx : Nat
  sectionTag : Nat
deriving DecidableEq, Repr

/-- Embeds `EncSection::operator<` (NCCHReader_p.hpp lines 142-145):
`return (other.address < this->address);` — note the operands: the receiver
is `a`, the argument is `b`, and the source compares `other.address`
(= `b.address`) against `this->address` (= `a.address`). -/
def EncSection.lt (a b : EncSection) : Bool :=
  decide (b.address < a.address)

/-- Ordered insertion with respect to `EncSection.lt`, the comparator handed
to `std::sort`. -/
def orderedInsertEnc (x : EncSection) : List EncSection → List EncSection
  | [] => [x]
  | y :: ys => if EncSection.lt x y then x :: y :: ys else y :: orderedInsertEnc x ys

/-- A comparison sort using `EncSection.lt`, the comparator `std::sort` is
invoked with on `encSections` after construction. -/
def sortEncSections : List EncSection → List EncSection
  | [] => []
  | x :: xs => orderedInsertEnc x (sortEncSections xs)

/-- Two concrete encrypted sections: ExHeader-like at 0x200, ExeFS-like at 0x4000. -/
def encSecA : EncSection := ⟨0x200, 0, 0x200, 0, 1⟩

/-- Second concrete section, at a strictly higher address than `encSecA`. -/
def encSecB : EncSection := ⟨0x4000, 0, 0x1000, 0, 2⟩

/-! ## RomFields (RomFields.cpp) -/

/-- Embeds the `RomFields::RomFieldsType` enumeration as used in RomFields.cpp. -/
inductive RomFieldType
  | RFT_INVALID
  | RFT_STRING
  | RFT_BITFIELD
  | RFT_LISTDATA
  | RFT_DATETIME
  | RFT_AGE_RATINGS
deriving DecidableEq, Repr

/-- Embeds the `RomFields::Field::data` union: exactly one member is active at
a time, so the union is rendered as an inductive. `generic` is the
`data.generic = 0` clearing write used by the `addData_*` error paths. -/
inductive FieldData
  | generic (v : Nat)
  | str (s : String)
  | bitfield (v : Nat)
  | date_time (v : Int)
  | age_ratings (a : List Nat)
deriving DecidableEq, Repr

/-- Embeds `RomFields::Field` with the members the `addData_*` functions touch:
declared type, validity flag, and the data union. -/
structure RomField where
  type : RomFieldType
  isValid : Bool
  data : FieldData
deriving DecidableEq, Repr

instance : Inhabited RomField := ⟨⟨RomFieldType.RFT_INVALID, false, FieldData.generic 0⟩⟩

/-- Embeds the state of `RomFieldsPrivate` relevant to the `addData_*`
functions: the `fields` vector and the `dataCount` counter. -/
structure RomFields where
  fields : List RomField
  dataCount : Nat
deriving DecidableEq, Repr

/-- Embeds `RomFields::addData_string(const rp_char *str)` (RomFields.cpp
lines 599-617).  `str = none` renders a null `rp_char*`.  Returns the updated
object and the C return value (`dataCount` before increment, or `-1`). -/
def RomFields.addData_string (rf : RomFields) (str : Option String) : RomFields × Int :=
  if rf.dataCount ≥ rf.fields.length then (rf, -1)
  else
    let field := rf.fields.getD rf.dataCount default
    let field1 :=
      match str with
      | none => { field with isValid := false, data := FieldData.generic 0 }
      | some s =>
        if field.type ≠ RomFieldType.RFT_STRING then
          { field with isValid := false, data := FieldData.generic 0 }
        else
          { field with data := FieldData.str s, isValid := true }
    ({ rf with fields := rf.fields.set rf.dataCount field1,
               dataCount := rf.dataCount + 1 }, (rf.dataCount : Int))

/-- Embeds `RomFields::addData_bitfield(uint32_t bitfield)` (RomFields.cpp
lines 752-769). -/
def RomFields.addData_bitfield (rf : RomFields) (bitfield : Nat) : RomFields × Int :=
  if rf.dataCount ≥ rf.fields.length then (rf, -1)
  else
    let field := rf.fields.getD rf.dataCount default
    let field1 :=
      if field.type ≠ RomFieldType.RFT_BITFIELD then
        { field with isValid := false, data := FieldData.generic 0 }
      else
        { field with data := FieldData.bitfield bitfield, isValid := true }
    ({ rf with fields := rf.fields.set rf.dataCount field1,
               dataCount := rf.dataCount + 1 }, (rf.dataCount : Int))

/-- Embeds `RomFields::addData_dateTime(int64_t date_time)` (RomFields.cpp
lines 800-817).  The source tests `field.type != RFT_BITFIELD` — not
`RFT_DATETIME` — despite its own `// RFT_DATETIME` comment; the embedding
reproduces the test exactly as written. -/
def RomFields.addData_dateTime (rf : RomFields) (date_time : Int) : RomFields × Int :=
  if rf.dataCount ≥ rf.fields.length then (rf, -1)
  else
    let field := rf.fields.getD rf.dataCount default
    let field1 :=
      if field.type ≠ RomFieldType.RFT_BITFIELD then
        { field with isValid := false, data := FieldData.generic 0 }
      else
        { field with data := FieldData.date_time date_time, isValid := true }
    ({ rf with fields := rf.fields.set rf.dataCount field1,
               dataCount := rf.dataCount + 1 }, (rf.dataCount : Int))

/-- Embeds `RomFields::addData_ageRatings(uint16_t age_ratings[16])`
(RomFields.cpp lines 824-843).  The 16-entry array argument is rendered as a
`List Nat`; the `memcpy` into a fresh `std::array` is a value copy here. -/
def RomFields.addData_ageRatings (rf : RomFields) (age_ratings : List Nat) : RomFields × Int :=
  if rf.dataCount ≥ rf.fields.length then (rf, -1)
  else
    let field := rf.fields.getD rf.dataCount default
    let field1 :=
      if field.type ≠ RomFieldType.RFT_AGE_RATINGS then
        { field with isValid := false, data := FieldData.generic 0 }
      else
        { field with data := FieldData.age_ratings age_ratings, isValid := true }
    ({ rf with fields := rf.fields.set rf.dataCount field1,
               dataCount := rf.dataCount + 1 }, (rf.dataCount : Int))

/-- A one-field RomFields whose single declared field has type `RFT_DATETIME`,
exactly what `RomFieldsPrivate::RomFieldsPrivate(desc, 1)` builds for a
date/time descriptor before any data is added. -/
def rfDateTime1 : RomFields :=
  ⟨[⟨RomFieldType.RFT_DATETIME, false, FieldData.generic 0⟩], 0⟩

/-- A one-field RomFields whose single declared field has type `RFT_BITFIELD`. -/
def rfBitfield1 : RomFields :=
  ⟨[⟨RomFieldType.RFT_BITFIELD, false, FieldData.generic 0⟩], 0⟩

/-! ## NCCH read path (NCCHReader_p.hpp: findEncSection / readFromROM)

Only the declarations of `NCCHReaderPrivate::findEncSection` and
`NCCHReaderPrivate::readFromROM` are in the sources; the algorithm is
modelled from the specification (§4.3 "Read algorithm"). -/

/-- Whether address `a` lies inside encrypted section `s`, i.e.
`s.address <= a < s.address + s.length`. -/
def EncSection.contains (s : EncSection) (a : Nat) : Bool :=
  decide (s.address ≤ a ∧ a < s.address + s.length)

/-- Modelled from the spec: `findEncSection` scans the `encSections` list and
returns the (first) encrypted section containing the given address, or `none`
("-1 if not encrypted" in the declaration's doc comment). -/
def findEncSection (ranges : List EncSection) (a : Nat) : Option EncSection :=
  ranges.find? (fun s => s.contains a)

/-- Folding step for the minimum of a set of addresses. -/
def minAddrOpt (x : Nat) : Option Nat → Option Nat
  | none => some x
  | some m => some (min x m)

/-- Modelled from the spec: the start address of the next encrypted section
strictly after `a`, if any — the point where a plaintext run ends. -/
def nextSectionStart (ranges : List EncSection) (a : Nat) : Option Nat :=
  (ranges.filter (fun s => decide (a < s.address))).foldr
    (fun s acc => minAddrOpt s.address acc) none

/-- Modelled from the spec: one keystream byte of the per-range counter-mode
cipher.  `ks keyIdx counter i` is byte `i` of the keystream block produced for
counter value `counter` under key index `keyIdx`; the block cipher itself is
abstracted as the function `ks`. -/
def decryptByte (ks : Nat → Nat → Nat → Nat) (sec : EncSection) (rom : Nat → Nat)
    (a : Nat) : Nat :=
  Nat.xor (rom a) (ks sec.keyIdx (sec.ctr_base + (a - sec.address) / 16) ((a - sec.address) % 16))

/-- Modelled from the spec: the decrypted bytes of the window
`[off, off+n)`, all of which lie inside section `sec`. -/
def decryptChunk (ks : Nat → Nat → Nat → Nat) (sec : EncSection) (rom : Nat → Nat)
    (off n : Nat) : List Nat :=
  (List.range n).map (fun i => decryptByte ks sec rom (off + i))

/-- Bytes of the underlying reader for the window `[off, off+n)`, passed
through unmodified. -/
def plainChunk (rom : Nat → Nat) (off n : Nat) : List Nat :=
  (List.range n).map (fun i => rom (off + i))

/-- Modelled from the spec (§4.3 read algorithm): serve `[offset, offset+size)`
by locating the covering encrypted section with `findEncSection`; if found,
decrypt up to the end of that section and recurse on the remainder; otherwise
pass underlying bytes through up to the next section start and recurse.  The
`fuel` argument bounds the number of iterations; each iteration consumes at
least one byte of `size`, so `fuel = size` suffices (see `readFromROM`). -/
def readFromROMAux (ks : Nat → Nat → Nat → Nat) (rom : Nat → Nat)
    (ranges : List EncSection) : Nat → Nat → Nat → List Nat
  | 0, _, _ => []
  | fuel + 1, offset, size =>
    if size = 0 then []
    else
      match findEncSection ranges offset with
      | some sec =>
        let n := min size (sec.address + sec.length - offset)
        decryptChunk ks sec rom offset n ++
          readFromROMAux ks rom ranges fuel (offset + n) (size - n)
      | none =>
        match nextSectionStart ranges offset with
        | some nxt =>
          let n := min size (nxt - offset)
          plainChunk rom offset n ++
            readFromROMAux ks rom ranges fuel (offset + n) (size - n)
        | none => plainChunk rom offset size

/-- Modelled from the spec: `readFromROM(offset, size)` with the iteration
bound instantiated; each iteration consumes at least one byte, so `size`
iterations always complete the request. -/
def readFromROM (ks : Nat → Nat → Nat → Nat) (rom : Nat → Nat)
    (ranges : List EncSection) (offset size : Nat) : List Nat :=
  readFromROMAux ks rom ranges size offset size

/-! ## Reader / Partition read-seek contract (GcnPartition.hpp)

GcnPartition.hpp declares `read`, `seek`, `size`, `partition_size`; the
implementations are not in the sources, so the behaviour is modelled from the
specification (§3 "Reader", §4.1, §4.2). -/

/-- Modelled from the spec: the observable Reader state — backing bytes,
current position, last POSIX-style error (0 = none).  The logical size is
`data.length`. -/
structure Reader where
  data : List Nat
  pos : Nat
  lastError : Nat
deriving DecidableEq, Repr

/-- Modelled from the spec: `read(ptr, size)` returns `min size (size() - pos)`
bytes starting at the cursor and advances the cursor; reading past
end-of-stream yields fewer bytes than requested and sets no error. -/
def Reader.read (r : Reader) (n : Nat) : Reader × List Nat :=
  let toRead := min n (r.data.length - r.pos)
  ({ r with pos := r.pos + toRead }, (r.data.drop r.pos).take toRead)

/-- Modelled from the spec: `seek(pos)` fails with `EINVAL`/`OutOfRange` on a
negative position (leaving the cursor unchanged) and otherwise clamps the
cursor into `[0, size]`, returning 0. -/
def Reader.seek (r : Reader) (p : Int) : Reader × Int :=
  if p < 0 then ({ r with lastError := 22 }, -1)
  else ({ r with pos := min p.toNat r.data.length }, 0)

/-! ## Partition address mapping (spec §4.2, §8) -/

/-- Wii-style partition data-block payload size: 0x7C00 bytes of data per
block ("data-block size" of the spec's translation algorithm). -/
def DATA_BLOCK_SIZE : Nat := 0x7C00

/-- Combined (data + hash) on-disc block size: 0x8000 bytes. -/
def TOTAL_BLOCK_SIZE : Nat := 0x8000

/-- Modelled from the spec (§4.2): logical-to-physical address translation —
divide the logical offset by the data-block size to get a block index,
multiply by the combined block size, and add the intra-block offset.  The
partition's physical start is added separately by the caller. -/
def addrMap (p : Nat) : Nat :=
  p / DATA_BLOCK_SIZE * TOTAL_BLOCK_SIZE + p % DATA_BLOCK_SIZE

/-- Modelled from the spec: the logical (hash-excluded) size corresponding to
a total partition size — full blocks contribute `DATA_BLOCK_SIZE` each, a
trailing partial block contributes its data prefix. -/
def logicalSize (total : Nat) : Nat :=
  total / TOTAL_BLOCK_SIZE * DATA_BLOCK_SIZE + min (total % TOTAL_BLOCK_SIZE) DATA_BLOCK_SIZE

/-- Modelled from the spec: the GcnPartition state observed by the `size()` and
`partition_size()` accessors — last error (0 = none) and the total partition
size (header and hashes included). -/
structure GcnPartition where
  lastError : Nat
  partSize : Nat
deriving DecidableEq, Repr

/-- Embeds the contract of `GcnPartition::size()` (GcnPartition.hpp lines
98-104): data size, hash-adjusted, or -1 on error.  The body is modelled from
the spec since only the declaration is in the sources. -/
def GcnPartition.size (p : GcnPartition) : Int :=
  if p.lastError ≠ 0 then -1 else (logicalSize p.partSize : Int)

/-- Embeds the contract of `GcnPartition::partition_size()` (GcnPartition.hpp
lines 106-113): partition size including header and hashes, or -1 on error.
The body is modelled from the spec. -/
def GcnPartition.partition_size (p : GcnPartition) : Int :=
  if p.lastError ≠ 0 then -1 else (p.partSize : Int)

/-! ## NCCH key verification (NCCHReader_p.hpp: verifyResult)

`NCCHReaderPrivate::verifyResult` has type `KeyManager::VerifyResult`; the
verification logic lives in NCCHReader.cpp / N3DSVerifyKeys.cpp, which are not
in the sources.  Modelled from the spec (§4.3 "Key handling", §8). -/

/-- Modelled from the spec: the tri-state key-verification result recorded in
`NCCHReaderPrivate::verifyResult`. -/
inductive VerifyResult
  | Verified
  | KeyMissing
  | KeyInvalid
deriving DecidableEq, Repr

/-- Modelled from the spec: one 16-byte block of the counter-mode stream
cipher, with the keystream abstracted as the key itself XORed into the data
(the XOR structure of CTR decryption is what the claims exercise). -/
def decryptBlock (key ct : List Nat) : List Nat :=
  List.zipWith Nat.xor key ct

/-- Modelled from the spec: CTR encryption of a known block — identical to
decryption in a XOR stream cipher. -/
def encryptBlock (key pt : List Nat) : List Nat :=
  List.zipWith Nat.xor key pt

/-- Modelled from the spec: the key-verification step.  Look the key up by
name in the external key store; a missing key is `KeyMissing`; a present key
whose decryption of the container's first ciphertext block equals the expected
fixed value is `Verified`, otherwise `KeyInvalid`. -/
def verifyNcchKey (store : String → Option (List Nat)) (keyName : String)
    (ct expected : List Nat) : VerifyResult :=
  match store keyName with
  | none => VerifyResult.KeyMissing
  | some key =>
    if decryptBlock key ct = expected then VerifyResult.Verified
    else VerifyResult.KeyInvalid

/-- Modelled from the spec: the outcome of constructing an
EncryptedContainerReader — the open itself succeeds regardless of key state;
the validity flag is set only when the keys verified. -/
structure OpenOutcome where
  opened : Bool
  verifyResult : VerifyResult
  validityFlag : Bool
deriving DecidableEq, Repr

/-- Modelled from the spec: construction verifies the keys and records the
result; a missing or invalid key does not make the open fail (raw bytes remain
exposed), it only clears the validity flag. -/
def openNcch (store : String → Option (List Nat)) (keyName : String)
    (ct expected : List Nat) : OpenOutcome :=
  let vr := verifyNcchKey store keyName ct expected
  { opened := true, verifyResult := vr, validityFlag := vr = VerifyResult.Verified }

/-! ## NCCH lazy header loads (NCCHReader_p.hpp: headers_loaded / loadExHeader)

The `HeadersPresent` bit constants are embedded from NCCHReader_p.hpp lines
63-68; the body of `loadExHeader` (and the ExeFS-header load) is not in the
sources and is modelled from the spec (§3, §4.3 "Extended-header and
resource-table loads are idempotent ... a failed load sets an error but does
not retry automatically on next access"). -/

/-- Embeds `HEADER_NONE = 0` (NCCHReader_p.hpp line 64). -/
def HEADER_NONE : Nat := 0

/-- Embeds `HEADER_NCCH = 1 << 0` (NCCHReader_p.hpp line 65). -/
def HEADER_NCCH : Nat := 1

/-- Embeds `HEADER_EXHEADER = 1 << 1` (NCCHReader_p.hpp line 66). -/
def HEADER_EXHEADER : Nat := 2

/-- Embeds `HEADER_EXEFS = 1 << 2` (NCCHReader_p.hpp line 67). -/
def HEADER_EXEFS : Nat := 4

/-- State of the lazily loaded NCCH headers: the `headers_loaded` bitfield
(from NCCHReader_p.hpp line 69), the cached extended header and ExeFS header
bytes, the per-load error flags (modelled from the spec's "a failed load sets
an error"), and a counter of reads issued to the underlying reader, used to
express "loading twice must not re-read or re-decrypt". -/
structure NCCHState where
  headers_loaded : Nat
  exheaderBytes : Option (List Nat)
  exefsBytes : Option (List Nat)
  exheaderError : Bool
  exefsError : Bool
  readCount : Nat
deriving DecidableEq, Repr

/-- Modelled from the spec: `loadExHeader()`.  `tryRead` is the outcome the
underlying reader+decryptor would produce if a read were issued (`none` =
failure).  If the ExHeader is already loaded, return success without touching
the underlying reader; if a previous load failed, return the recorded error
without retrying; otherwise issue exactly one read and either cache the bytes
and set `HEADER_EXHEADER`, or record the failure. -/
def loadExHeader (tryRead : Option (List Nat)) (s : NCCHState) : NCCHState × Int :=
  if s.headers_loaded &&& HEADER_EXHEADER ≠ 0 then (s, 0)
  else if s.exheaderError then (s, -5)
  else
    match tryRead with
    | some bs =>
      ({ s with headers_loaded := s.headers_loaded ||| HEADER_EXHEADER,
                exheaderBytes := some bs,
                readCount := s.readCount + 1 }, 0)
    | none =>
      ({ s with exheaderError := true, readCount := s.readCount + 1 }, -5)

/-- Modelled from the spec: the ExeFS-header (container-local resource table)
load, with the same lazy/idempotent structure as `loadExHeader` but its own
`HEADER_EXEFS` flag, cache, and error flag. -/
def loadExeFsHeader (tryRead : Option (List Nat)) (s : NCCHState) : NCCHState × Int :=
  if s.headers_loaded &&& HEADER_EXEFS ≠ 0 then (s, 0)
  else if s.exefsError then (s, -5)
  else
    match tryRead with
    | some bs =>
      ({ s with headers_loaded := s.headers_loaded ||| HEADER_EXEFS,
                exefsBytes := some bs,
                readCount := s.readCount + 1 }, 0)
    | none =>
      ({ s with exefsError := true, readCount := s.readCount + 1 }, -5)

/-! ## NE resource lookup (NEResourceReader.hpp: open)

Only the declaration of `NEResourceReader::open(type, id, lang)` is in the
sources; the three-stage lookup is modelled from the spec (§3, §4.4). -/

/-- A language-level leaf of the resource directory: language identifier plus
the located blob's offset/length pair. -/
structure ResLangEntry where
  lang : Nat
  dataOffset : Nat
  dataLength : Nat
deriving DecidableEq, Repr

/-- An identifier-level entry: numeric identifier plus its language list. -/
structure ResIdEntry where
  id : Nat
  langs : List ResLangEntry
deriving DecidableEq, Repr

/-- A type-level entry: resource type plus its identifier list. -/
structure ResTypeEntry where
  typeID : Nat
  ids : List ResIdEntry
deriving DecidableEq, Repr

/-- Modelled from the spec: stage 1 — walk the type list for an exact match. -/
def findResType (table : List ResTypeEntry) (t : Nat) : Option ResTypeEntry :=
  table.find? (fun e => e.typeID == t)

/-- Modelled from the spec: stage 2 — walk the per-type identifier list;
`id = -1` means "first available entry at this level". -/
def findResId (ids : List ResIdEntry) (id : Int) : Option ResIdEntry :=
  if id = -1 then ids.head?
  else ids.find? (fun e => (e.id : Int) == id)

/-- Modelled from the spec: stage 3 — walk the per-identifier language list;
`lang = -1` means "first available entry at this level". -/
def findResLang (langs : List ResLangEntry) (lang : Int) : Option ResLangEntry :=
  if lang = -1 then langs.head?
  else langs.find? (fun e => (e.lang : Int) == lang)

/-- Modelled from the spec: `NEResourceReader::open(type, id, lang)` — the
three-stage lookup; the returned sub-Reader is rendered as the located
resource's `(dataOffset, dataLength)` window, `none` is `NotFound`. -/
def openResource (table : List ResTypeEntry) (t : Nat) (id lang : Int) :
    Option (Nat × Nat) :=
  match findResType table t with
  | none => none
  | some te =>
    match findResId te.ids id with
    | none => none
    | some ie =>
      match findResLang ie.langs lang with
      | none => none
      | some le => some (le.dataOffset, le.dataLength)

/-! ## RomFields::detach at the allocation level (RomFields.cpp lines 303-383)

To state "distinct allocation", heap payloads are rendered as pointer
identifiers (`Nat`); a fresh-pointer counter models `new`.  The per-type copy
logic below follows the `switch` in `RomFields::detach` line by line. -/

/-- The `Field::desc` union at the pointer level: `flags` scalar, or
`bitfield {elements, elemsPerRow, names*}`, or `list_data {names*}`; the
`names` vectors are heap pointers. -/
inductive FieldDescP
  | flags (v : Nat)
  | bitfield (elements : Nat) (elemsPerRow : Nat) (names : Option Nat)
  | list_data (names : Option Nat)
deriving DecidableEq, Repr

/-- The `Field::data` union at the pointer level: scalars stay scalars, the
`str`, `list_data` and `age_ratings` members are heap pointers. -/
inductive FieldDataP
  | generic (v : Nat)
  | str (p : Option Nat)
  | bitfield (v : Nat)
  | date_time (v : Int)
  | list_data (p : Option Nat)
  | age_ratings (p : Option Nat)
deriving DecidableEq, Repr

/-- The heap pointer held in a `data` union member, if its active member is
one of the heap-allocated ones. -/
def FieldDataP.ptr : FieldDataP → Option Nat
  | FieldDataP.str p => p
  | FieldDataP.list_data p => p
  | FieldDataP.age_ratings p => p
  | _ => none

/-- The heap pointer held in a `desc` union member, if its active member has
a `names` vector. -/
def FieldDescP.namesPtr : FieldDescP → Option Nat
  | FieldDescP.bitfield _ _ p => p
  | FieldDescP.list_data p => p
  | _ => none

/-- A `RomFields::Field` at the pointer level. -/
structure RomFieldP where
  type : RomFieldType
  isValid : Bool
  desc : FieldDescP
  data : FieldDataP
deriving DecidableEq, Repr

/-- Embeds the per-field body of the `detach` loop (RomFields.cpp lines
315-377).  `fresh` is the next unused heap pointer; each `new` hands out
`fresh` and bumps it.  A new field starts zeroed (the `resize` of the new
private data value-initializes it), then `name`/`type`/`isValid` are copied
and the `switch` assigns the members listed in the source — note that the
`RFT_AGE_RATINGS` arm assigns the old pointer itself (line 371) instead of
allocating a copy. -/
def detachField (field_old : RomFieldP) (fresh : Nat) : RomFieldP × Nat :=
  let field_new0 : RomFieldP :=
    { type := field_old.type, isValid := field_old.isValid,
      desc := FieldDescP.flags 0, data := FieldDataP.generic 0 }
  if !field_old.isValid then (field_new0, fresh)
  else
    match field_old.type with
    | RomFieldType.RFT_INVALID => ({ field_new0 with isValid := false }, fresh)
    | RomFieldType.RFT_STRING =>
      let fnew := { field_new0 with desc := field_old.desc }
      match field_old.data.ptr with
      | some _ => ({ fnew with data := FieldDataP.str (some fresh) }, fresh + 1)
      | none => ({ fnew with data := FieldDataP.str none }, fresh)
    | RomFieldType.RFT_BITFIELD =>
      match field_old.desc with
      | FieldDescP.bitfield el epr (some _) =>
        ({ field_new0 with desc := FieldDescP.bitfield el epr (some fresh),
                           data := field_old.data }, fresh + 1)
      | FieldDescP.bitfield el epr none =>
        ({ field_new0 with desc := FieldDescP.bitfield el epr none,
                           data := field_old.data }, fresh)
      | d => ({ field_new0 with desc := d, data := field_old.data }, fresh)
    | RomFieldType.RFT_LISTDATA =>
      let descStep :
          FieldDescP × Nat :=
        match field_old.desc.namesPtr with
        | some _ => (FieldDescP.list_data (some fresh), fresh + 1)
        | none => (FieldDescP.list_data none, fresh)
      let dataStep :
          FieldDataP × Nat :=
        match field_old.data.ptr with
        | some _ => (FieldDataP.list_data (some descStep.2), descStep.2 + 1)
        | none => (FieldDataP.list_data none, descStep.2)
      ({ field_new0 with desc := descStep.1, data := dataStep.1 }, dataStep.2)
    | RomFieldType.RFT_DATETIME =>
      ({ field_new0 with desc := field_old.desc, data := field_old.data }, fresh)
    | RomFieldType.RFT_AGE_RATINGS =>
      ({ field_new0 with data := field_old.data }, fresh)

/-- The `detach` loop over the whole field vector, threading the fresh-pointer
counter. -/
def detachFields : List RomFieldP → Nat → List RomFieldP × Nat
  | [], fresh => ([], fresh)
  | f :: fs, fresh =>
    let step := detachField f fresh
    let rest := detachFields fs step.2
    (step.1 :: rest.1, rest.2)

/-- Embeds `RomFields::detach` (RomFields.cpp lines 303-383): a no-op unless
the private data is shared (`refCount > 1`); otherwise every field is copied
into a freshly allocated private data object. -/
def RomFields.detach (isShared : Bool) (fields : List RomFieldP) (fresh : Nat) :
    List RomFieldP × Nat :=
  if !isShared then (fields, fresh) else detachFields fields fresh

/-- Embeds the per-field branch of `RomFieldsPrivate::delete_data`
(RomFields.cpp lines 222-260): the heap pointers `delete`d for one field. -/
def deletePtrsOfField (f : RomFieldP) : List Nat :=
  if !f.isValid then []
  else
    match f.type with
    | RomFieldType.RFT_INVALID => []
    | RomFieldType.RFT_DATETIME => []
    | RomFieldType.RFT_STRING => f.data.ptr.toList
    | RomFieldType.RFT_BITFIELD => f.desc.namesPtr.toList
    | RomFieldType.RFT_LISTDATA => f.desc.namesPtr.toList ++ f.data.ptr.toList
    | RomFieldType.RFT_AGE_RATINGS => f.data.ptr.toList

/-- Embeds `RomFieldsPrivate::delete_data` (RomFields.cpp lines 222-260): the
pointers deleted when a private data object is destroyed (the loop runs from
the last field down to the first). -/
def delete_data (fields : List RomFieldP) : List Nat :=
  (fields.reverse.map deletePtrsOfField).flatten

/-- A concrete shared instance for the detach scenario: one valid
`RFT_AGE_RATINGS` field whose array lives at heap pointer 3. -/
def ageRatingsFieldP : RomFieldP :=
  { type := RomFieldType.RFT_AGE_RATINGS, isValid := true,
    desc := FieldDescP.flags 0, data := FieldDataP.age_ratings (some 3) }

/-- A concrete valid `RFT_STRING` field whose string lives at heap pointer 3,
for contrast with the age-ratings arm. -/
def stringFieldP : RomFieldP :=
  { type := RomFieldType.RFT_STRING, isValid := true,
    desc := FieldDescP.flags 0, data := FieldDataP.str (some 3) }

/-! ## Concrete instances used by the witnesses -/

/-- A concrete keystream function for witness evaluation. -/
def ksW (k c i : Nat) : Nat := (k * 31 + c * 7 + i) % 256

/-- A concrete underlying-reader byte function for witness evaluation. -/
def romW (a : Nat) : Nat := (a * 13 + 5) % 256

/-- First witness encrypted range: `[0, 32)`, key index 0. -/
def secW1 : EncSection := ⟨0, 0, 32, 0, 1⟩

/-- Second witness encrypted range: `[32, 64)`, adjacent to `secW1`, key index 1. -/
def secW2 : EncSection := ⟨32, 2, 32, 1, 2⟩

/-- The witness encrypted-range list: two adjacent ranges. -/
def rangesW : List EncSection := [secW1, secW2]

/-- A concrete Reader for witness evaluation: four bytes, cursor at 1. -/
def readerW : Reader := ⟨[10, 20, 30, 40], 1, 0⟩

/-- A concrete open GcnPartition (no error) for witness evaluation. -/
def partW : GcnPartition := ⟨0, 0x28000⟩

/-- A concrete 16-byte key for witness evaluation. -/
def keyW : List Nat :=
  [0x11, 0x22, 0x33, 0x44, 0x55, 0x66, 0x77, 0x88,
   0x99, 0xAA, 0xBB, 0xCC, 0xDD, 0xEE, 0xFF, 0x01]

/-- The expected fixed first-block value the verification check compares
against, for witness evaluation. -/
def expectedW : List Nat :=
  [0x4E, 0x43, 0x43, 0x48, 0, 0, 0, 0, 0, 0, 0, 0, 0, 0, 0, 0]

/-- The witness container's first ciphertext block: `expectedW` encrypted
under `keyW`. -/
def ctW : List Nat := encryptBlock keyW expectedW

/-- A concrete key store holding `keyW` under one name. -/
def storeW (name : String) : Option (List Nat) :=
  if name = "ncchKey0" then some keyW else none

/-- A fresh NCCH lazy-load state: nothing loaded, no errors, no reads yet. -/
def ncchS0 : NCCHState := ⟨HEADER_NCCH, none, none, false, false, 0⟩

/-- A concrete language entry used in the resource-lookup witness. -/
def leW : ResLangEntry := ⟨0x409, 0x800, 0x120⟩

/-- A concrete identifier entry holding `leW`. -/
def ieW : ResIdEntry := ⟨1, [leW, ⟨0x411, 0xA00, 0x80⟩]⟩

/-- A concrete type entry holding `ieW`. -/
def teW : ResTypeEntry := ⟨16, [ieW, ⟨2, []⟩]⟩

/-- A concrete resource table: a version-info-like type 16 plus an icon-like
type 14. -/
def tableW : List ResTypeEntry := [⟨14, []⟩, teW]
/-! ## Theorems -/

/-- C1: the EncSection comparison operator, as written
(`other.address < this->address`), makes `std::sort` produce *descending*
addresses: sorting the two non-overlapping sections at 0x200 and 0x4000 puts
0x4000 first, so the sorted address sequence is not non-decreasing.  The
claim's "ascending order / non-decreasing addresses" is what the operator was
evidently meant to produce (its doc calls it the comparator for `std::sort`),
but the operands are swapped. -/
theorem C1_encSection_sort_descends :
    EncSection.lt encSecA encSecB = false ∧
    EncSection.lt encSecB encSecA = true ∧
    sortEncSections [encSecA, encSecB] = [encSecB, encSecA] ∧
    (sortEncSections [encSecA, encSecB]).map EncSection.address = [16384, 512] ∧
    ¬ List.Sorted (· ≤ ·) ((sortEncSections [encSecA, encSecB]).map EncSection.address) := by
  refine ⟨rfl, rfl, by decide, by decide, ?_⟩
  decide

/-- C9: `addData_dateTime` checks the declared field type against
`RFT_BITFIELD` instead of `RFT_DATETIME` (RomFields.cpp lines 808-809), so a
field declared `RFT_DATETIME` is marked invalid and left without a payload
(while the index is still returned and the counter incremented), and a field
declared `RFT_BITFIELD` is marked valid and handed the date/time payload —
the exact opposite of the claim's type-matching rule for this adder. -/
theorem C9_dateTime_type_check_bug :
    ((rfDateTime1.addData_dateTime 1234567).1 =
        ⟨[⟨RomFieldType.RFT_DATETIME, false, FieldData.generic 0⟩], 1⟩ ∧
      (rfDateTime1.addData_dateTime 1234567).2 = 0) ∧
    ((rfBitfield1.addData_dateTime 1234567).1 =
        ⟨[⟨RomFieldType.RFT_BITFIELD, true, FieldData.date_time 1234567⟩], 1⟩ ∧
      (rfBitfield1.addData_dateTime 1234567).2 = 0) := by
  refine ⟨⟨?_, rfl⟩, ⟨?_, rfl⟩⟩ <;> rfl

/-- C10: `detach` hands the *same* age-ratings allocation to the detached
copy (RomFields.cpp line 371 assigns the pointer instead of allocating), so
the old and new instances share allocation 3, the fresh-pointer counter does
not move, and `delete_data` of either instance deletes pointer 3 — destroying
one instance leaves the other's field dangling.  For contrast, a string field
does get a distinct allocation (pointer 100). -/
theorem C10_detach_age_ratings_not_deep :
    (RomFields.detach true [ageRatingsFieldP] 100).1.map (fun f => f.data.ptr) = [some 3] ∧
    (RomFields.detach true [ageRatingsFieldP] 100).2 = 100 ∧
    (RomFields.detach true [stringFieldP] 100).1.map (fun f => f.data.ptr) = [some 100] ∧
    3 ∈ delete_data [ageRatingsFieldP] ∧
    3 ∈ delete_data (RomFields.detach true [ageRatingsFieldP] 100).1 := by
  decide
/-- The spec's address translation is strictly monotone: more logical bytes
always map to strictly larger physical offsets. -/
theorem addrMap_strictMono : StrictMono addrMap := by
  intro p q h
  unfold addrMap DATA_BLOCK_SIZE TOTAL_BLOCK_SIZE
  omega

/-- C4: the Partition logical-to-physical address mapping is total (it is a
function on all of `Nat`, hence on `[0, logical_length)`), monotonic
non-decreasing, injective, and maps 0 to 0. -/
theorem C4_addrMap_monotone_injective :
    addrMap 0 = 0 ∧
    (∀ p q, p ≤ q → addrMap p ≤ addrMap q) ∧
    Function.Injective addrMap := by
  refine ⟨rfl, ?_, addrMap_strictMono.injective⟩
  intro p q h
  exact addrMap_strictMono.monotone h

/-- Witness for C4 at concrete offsets spanning a hash-block boundary. -/
theorem C4_witness :
    addrMap 31743 ≤ addrMap 31744 :=
  C4_addrMap_monotone_injective.2.1 31743 31744 (by decide)

/-- The hash-excluded data size never exceeds the total size it is carved
from. -/
theorem logicalSize_le (total : Nat) : logicalSize total ≤ total := by
  unfold logicalSize DATA_BLOCK_SIZE TOTAL_BLOCK_SIZE
  omega

/-- C7: the logical data size reported by `size()` never exceeds the total
partition size reported by `partition_size()`, and each accessor returns -1
exactly when the partition is in an error state. -/
theorem C7_partition_sizes (p : GcnPartition) :
    (p.lastError = 0 → p.size ≤ p.partition_size) ∧
    (p.size = -1 ↔ p.lastError ≠ 0) ∧
    (p.partition_size = -1 ↔ p.lastError ≠ 0) := by
  unfold GcnPartition.size GcnPartition.partition_size
  by_cases h : p.lastError = 0
  · simp [h]
    exact_mod_cast logicalSize_le p.partSize
  · simp [h]

/-- Witness for C7: an open partition with no error and a partition with an
error state. -/
theorem C7_witness :
    (partW.size ≤ partW.partition_size) ∧
    (GcnPartition.size ⟨5, 100⟩ = -1 ↔ (5 : Nat) ≠ 0) :=
  ⟨(C7_partition_sizes partW).1 rfl, (C7_partition_sizes ⟨5, 100⟩).2.1⟩
/-- C3: for an open Reader with a well-formed cursor and no prior error: a
read of length 0 returns zero bytes and no error; a read starting exactly at
the logical length returns zero bytes and no error; a read extending past
end-of-stream returns fewer bytes than requested and no error; and neither
read nor seek ever moves the cursor outside `[0, size]`. -/
theorem C3_reader_read_seek (r : Reader) (n : Nat) (p : Int)
    (hwf : r.pos ≤ r.data.length) (hne : r.lastError = 0) :
    ((r.read 0).2.length = 0 ∧ (r.read 0).1.lastError = 0) ∧
    (r.pos = r.data.length → (r.read n).2.length = 0 ∧ (r.read n).1.lastError = 0) ∧
    (r.data.length < r.pos + n → (r.read n).2.length < n ∧ (r.read n).1.lastError = 0) ∧
    (r.read n).1.pos ≤ r.data.length ∧
    (r.seek p).1.pos ≤ r.data.length := by
  unfold Reader.read Reader.seek
  simp only [List.length_take, List.length_drop]
  refine ⟨⟨by omega, hne⟩, fun h => ⟨by omega, hne⟩, fun h => ⟨by omega, hne⟩, by omega, ?_⟩
  split
  · simpa using hwf
  · simp only []
    omega

/-- Witness for C3: a concrete four-byte reader with cursor at 1, an
over-long read of 9 bytes, and a negative seek. -/
theorem C3_witness :
    ((readerW.read 0).2.length = 0 ∧ (readerW.read 0).1.lastError = 0) ∧
    (readerW.pos = readerW.data.length →
      (readerW.read 9).2.length = 0 ∧ (readerW.read 9).1.lastError = 0) ∧
    (readerW.data.length < readerW.pos + 9 →
      (readerW.read 9).2.length < 9 ∧ (readerW.read 9).1.lastError = 0) ∧
    (readerW.read 9).1.pos ≤ readerW.data.length ∧
    (readerW.seek (-2)).1.pos ≤ readerW.data.length :=
  C3_reader_read_seek readerW 9 (-2) (by decide) rfl

/-- C8: `open(type, id, language)` resolves through the type list, then the
per-type identifier list, then the per-identifier language list; it yields the
located resource's window when every stage matches, yields `NotFound` (`none`)
as soon as any stage has no match, and `-1` at the identifier or language
stage selects the first available entry of that stage. -/
theorem C8_open_three_stage (table : List ResTypeEntry) (t : Nat) (id lang : Int)
    (te : ResTypeEntry) (ie : ResIdEntry) (le : ResLangEntry) :
    (findResType table t = some te → findResId te.ids id = some ie →
      findResLang ie.langs lang = some le →
      openResource table t id lang = some (le.dataOffset, le.dataLength)) ∧
    (findResType table t = none → openResource table t id lang = none) ∧
    (findResType table t = some te → findResId te.ids id = none →
      openResource table t id lang = none) ∧
    (findResType table t = some te → findResId te.ids id = some ie →
      findResLang ie.langs lang = none → openResource table t id lang = none) ∧
    (findResId te.ids (-1) = te.ids.head? ∧ findResLang ie.langs (-1) = ie.langs.head?) := by
  refine ⟨?_, ?_, ?_, ?_, by simp [findResId], by simp [findResLang]⟩ <;>
    intro h1 <;> unfold openResource
  · intro h2 h3
    simp only [h1, h2, h3]
  · simp only [h1]
  · intro h2
    simp only [h1, h2]
  · intro h2 h3
    simp only [h1, h2, h3]

/-- Witness for C8: looking up type 16, identifier wildcard, language 0x409
in the concrete table finds `leW`. -/
theorem C8_witness :
    openResource tableW 16 (-1) 0x409 = some (leW.dataOffset, leW.dataLength) :=
  (C8_open_three_stage tableW 16 (-1) 0x409 teW ieW leW).1 (by decide) (by decide) (by decide)
/-- Setting a flag bit makes the corresponding mask test succeed: the header
bitfield arithmetic behind the "already loaded" fast path. -/
theorem or_and_self_eq (x m : Nat) : (x ||| m) &&& m = m := by
  apply Nat.eq_of_testBit_eq
  intro i
  simp only [Nat.testBit_and, Nat.testBit_or]
  cases m.testBit i <;> simp

/-- C6: the extended-header and ExeFS-header loads are idempotent.  Starting
from a state where the respective header is not loaded and not errored: a
successful load caches the bytes and sets the flag, and a second load returns
success with the state unchanged — in particular no further underlying read
(readCount unchanged) and unchanged header bytes; a failed load records the
error, and a subsequent load returns the error with the state unchanged, even
if the underlying read would now succeed. -/
theorem C6_lazy_header_loads (s : NCCHState) (bs : List Nat)
    (t2 : Option (List Nat))
    (hx : s.headers_loaded &&& HEADER_EXHEADER = 0) (he : s.exheaderError = false)
    (hx2 : s.headers_loaded &&& HEADER_EXEFS = 0) (he2 : s.exefsError = false) :
    ((loadExHeader (some bs) s).1.exheaderBytes = some bs ∧
      (loadExHeader (some bs) s).2 = 0 ∧
      loadExHeader t2 (loadExHeader (some bs) s).1 = ((loadExHeader (some bs) s).1, 0)) ∧
    ((loadExHeader none s).1.exheaderError = true ∧
      (loadExHeader none s).2 = -5 ∧
      loadExHeader t2 (loadExHeader none s).1 = ((loadExHeader none s).1, -5)) ∧
    ((loadExeFsHeader (some bs) s).1.exefsBytes = some bs ∧
      (loadExeFsHeader (some bs) s).2 = 0 ∧
      loadExeFsHeader t2 (loadExeFsHeader (some bs) s).1 = ((loadExeFsHeader (some bs) s).1, 0)) ∧
    ((loadExeFsHeader none s).1.exefsError = true ∧
      (loadExeFsHeader none s).2 = -5 ∧
      loadExeFsHeader t2 (loadExeFsHeader none s).1 = ((loadExeFsHeader none s).1, -5)) := by
  have hx1 : s.headers_loaded &&& 2 = 0 := hx
  have hx3 : s.headers_loaded &&& 4 = 0 := hx2
  unfold loadExHeader loadExeFsHeader HEADER_EXHEADER HEADER_EXEFS
  simp [hx1, hx3, he, he2, or_and_self_eq]

/-- Witness for C6: the fresh state `ncchS0`, a two-byte header, and a failing
second read. -/
theorem C6_witness :
    ((loadExHeader (some [1, 2]) ncchS0).1.exheaderBytes = some [1, 2] ∧
      (loadExHeader (some [1, 2]) ncchS0).2 = 0 ∧
      loadExHeader none (loadExHeader (some [1, 2]) ncchS0).1 =
        ((loadExHeader (some [1, 2]) ncchS0).1, 0)) ∧
    ((loadExHeader none ncchS0).1.exheaderError = true ∧
      (loadExHeader none ncchS0).2 = -5 ∧
      loadExHeader none (loadExHeader none ncchS0).1 = ((loadExHeader none ncchS0).1, -5)) ∧
    ((loadExeFsHeader (some [1, 2]) ncchS0).1.exefsBytes = some [1, 2] ∧
      (loadExeFsHeader (some [1, 2]) ncchS0).2 = 0 ∧
      loadExeFsHeader none (loadExeFsHeader (some [1, 2]) ncchS0).1 =
        ((loadExeFsHeader (some [1, 2]) ncchS0).1, 0)) ∧
    ((loadExeFsHeader none ncchS0).1.exefsError = true ∧
      (loadExeFsHeader none ncchS0).2 = -5 ∧
      loadExeFsHeader none (loadExeFsHeader none ncchS0).1 =
        ((loadExeFsHeader none ncchS0).1, -5)) :=
  C6_lazy_header_loads ncchS0 [1, 2] none (by decide) rfl (by decide) rfl
/-- Indexing a `zipWith` of XORs: entry `i` of the combined list is the XOR of
the entries at `i`. -/
theorem getD_zipWith_xor (l1 l2 : List Nat) (i : Nat)
    (h1 : i < l1.length) (h2 : i < l2.length) :
    (List.zipWith Nat.xor l1 l2).getD i 0 = Nat.xor (l1.getD i 0) (l2.getD i 0) := by
  induction l1 generalizing l2 i with
  | nil => simp at h1
  | cons a l1 ih =>
    cases l2 with
    | nil => simp at h2
    | cons b l2 =>
      cases i with
      | zero => rfl
      | succ j =>
        simp only [List.zipWith_cons_cons, List.getD_cons_succ]
        exact ih l2 j (by simpa using h1) (by simpa using h2)

/-- C5: the key-verification outcome is exactly the spec's tri-state: a
present key that decrypts the container's first block to the expected fixed
value verifies as `Verified`; a key absent from the store yields `KeyMissing`
while the open still succeeds with the validity flag false; a present key
failing the check yields `KeyInvalid`; and flipping any single byte of a
correct key turns `Verified` into `KeyInvalid`. -/
theorem C5_key_verification (store : String → Option (List Nat)) (keyName : String)
    (key ct expected : List Nat) :
    (store keyName = some key → decryptBlock key ct = expected →
      verifyNcchKey store keyName ct expected = VerifyResult.Verified) ∧
    (store keyName = none →
      verifyNcchKey store keyName ct expected = VerifyResult.KeyMissing ∧
      (openNcch store keyName ct expected).opened = true ∧
      (openNcch store keyName ct expected).validityFlag = false) ∧
    (store keyName = some key → decryptBlock key ct ≠ expected →
      verifyNcchKey store keyName ct expected = VerifyResult.KeyInvalid) ∧
    (∀ i b, key.length = expected.length → i < key.length → b ≠ key.getD i 0 →
      verifyNcchKey (fun _ => some (key.set i b)) keyName
        (encryptBlock key expected) expected = VerifyResult.KeyInvalid) := by
  refine ⟨?_, ?_, ?_, ?_⟩
  · intro h1 h2
    unfold verifyNcchKey
    simp [h1, h2]
  · intro h1
    unfold openNcch verifyNcchKey
    simp [h1]
  · intro h1 h2
    unfold verifyNcchKey
    simp [h1, h2]
  · intro i b hlen hi hb
    unfold verifyNcchKey
    simp only []
    rw [if_neg]
    intro hEq
    have hmod : (decryptBlock (key.set i b) (encryptBlock key expected)).getD i 0 =
        expected.getD i 0 := by rw [hEq]
    unfold decryptBlock encryptBlock at hmod
    rw [getD_zipWith_xor _ _ i (by simpa using hi)
        (by simp [List.length_zipWith]; omega),
      getD_zipWith_xor _ _ i (by omega) (by omega)] at hmod
    rw [List.getD_eq_getElem _ _ (by simpa using hi), List.getElem_set_self] at hmod
    -- hmod : b XOR (key_i XOR e_i) = e_i, hence b = key_i
    change b ^^^ (key.getD i 0 ^^^ expected.getD i 0) = expected.getD i 0 at hmod
    have hbk : b = key.getD i 0 := by
      have h3 := congrArg (fun x => x ^^^ expected.getD i 0) hmod
      simpa [Nat.xor_assoc, Nat.xor_self, Nat.xor_zero] using h3
    exact hb hbk

/-- Witness for C5: the concrete store and key verify; a missing name reports
`KeyMissing`; flipping byte 0 of the correct key reports `KeyInvalid`. -/
theorem C5_witness :
    verifyNcchKey storeW "ncchKey0" ctW expectedW = VerifyResult.Verified ∧
    verifyNcchKey storeW "otherKey" ctW expectedW = VerifyResult.KeyMissing ∧
    verifyNcchKey (fun _ => some (keyW.set 0 0x12)) "ncchKey0"
      (encryptBlock keyW expectedW) expectedW = VerifyResult.KeyInvalid :=
  ⟨(C5_key_verification storeW "ncchKey0" keyW ctW expectedW).1 (by decide) (by decide),
   ((C5_key_verification storeW "otherKey" keyW ctW expectedW).2.1 (by decide)).1,
   (C5_key_verification storeW "ncchKey0" keyW ctW expectedW).2.2.2 0 0x12 (by decide)
     (by decide) (by decide)⟩
/-- A successful `findEncSection` lookup returns a section that contains the
queried address. -/
theorem findEncSection_some_bounds {ranges : List EncSection} {a : Nat}
    {sec : EncSection} (h : findEncSection ranges a = some sec) :
    sec.address ≤ a ∧ a < sec.address + sec.length := by
  have h2 := List.find?_some h
  simpa [EncSection.contains] using h2

/-- A zero-length request reads nothing, whatever the fuel. -/
theorem readFromROMAux_zero (ks : Nat → Nat → Nat → Nat) (rom : Nat → Nat)
    (ranges : List EncSection) (fuel offset : Nat) :
    readFromROMAux ks rom ranges fuel offset 0 = [] := by
  cases fuel <;> rfl

/-- The folded minimum of a list of addresses, all strictly above `a`, is
strictly above `a`. -/
theorem foldr_minAddrOpt_gt (a : Nat) :
    ∀ (l : List EncSection), (∀ s ∈ l, a < s.address) →
      ∀ m, l.foldr (fun s acc => minAddrOpt s.address acc) none = some m → a < m := by
  intro l
  induction l with
  | nil => intro _ m h2; simp at h2
  | cons s t ih =>
    intro hall m h2
    simp only [List.foldr_cons] at h2
    cases htail : t.foldr (fun s acc => minAddrOpt s.address acc) none with
    | none =>
      rw [htail] at h2
      unfold minAddrOpt at h2
      have hm : m = s.address := by simpa using h2.symm
      subst hm
      exact hall s (List.mem_cons_self s t)
    | some mm =>
      rw [htail] at h2
      unfold minAddrOpt at h2
      have hm : m = min s.address mm := by simpa using h2.symm
      have h3 : a < mm := ih (fun x hx => hall x (List.mem_cons_of_mem s hx)) mm htail
      have h4 : a < s.address := hall s (List.mem_cons_self s t)
      omega

/-- A plaintext run always begins strictly after the current address. -/
theorem nextSectionStart_gt (ranges : List EncSection) (a m : Nat)
    (h : nextSectionStart ranges a = some m) : a < m := by
  unfold nextSectionStart at h
  refine foldr_minAddrOpt_gt a _ ?_ m h
  intro s hs
  have := List.mem_filter.mp hs
  simpa using this.2

/-- Passthrough chunks concatenate: reading `n` bytes and then the remaining
`size - n` bytes is the same as reading `size` bytes. -/
theorem plainChunk_append (rom : Nat → Nat) (offset n size : Nat) (h : n ≤ size) :
    plainChunk rom offset n ++ plainChunk rom (offset + n) (size - n) =
      plainChunk rom offset size := by
  unfold plainChunk
  conv_rhs => rw [show size = n + (size - n) by omega]
  rw [List.range_add, List.map_append, List.map_map]
  simp [Function.comp_def, Nat.add_assoc]

/-- A window disjoint from every encrypted range is served entirely from the
underlying reader, unmodified. -/
theorem readFromROMAux_plain (ks : Nat → Nat → Nat → Nat) (rom : Nat → Nat)
    (ranges : List EncSection) :
    ∀ fuel offset size, size ≤ fuel →
      (∀ s ∈ ranges, offset + size ≤ s.address ∨ s.address + s.length ≤ offset) →
      readFromROMAux ks rom ranges fuel offset size = plainChunk rom offset size := by
  intro fuel
  induction fuel with
  | zero =>
    intro offset size hle _
    have hsz : size = 0 := by omega
    subst hsz
    simp [readFromROMAux, plainChunk]
  | succ fuel ih =>
    intro offset size hle hdisj
    by_cases hsz : size = 0
    · subst hsz
      simp [readFromROMAux, plainChunk]
    · have hfind : findEncSection ranges offset = none := by
        unfold findEncSection
        rw [List.find?_eq_none]
        intro s hs
        have hd := hdisj s hs
        simp only [EncSection.contains, decide_eq_true_eq]
        rcases hd with hd | hd <;> omega
      rw [readFromROMAux, if_neg hsz]
      simp only [hfind]
      cases hnext : nextSectionStart ranges offset with
      | none => rfl
      | some nxt =>
        simp only []
        have hgt : offset < nxt := nextSectionStart_gt ranges offset nxt hnext
        have hih := ih (offset + min size (nxt - offset)) (size - min size (nxt - offset))
          (by omega) ?_
        · rw [hih]
          exact plainChunk_append rom offset (min size (nxt - offset)) size (by omega)
        · intro s hs
          have hd := hdisj s hs
          omega

/-- A request window covering the tail of one encrypted range and the head of
the adjacent next range is split at the boundary: one decrypted sub-read per
range, concatenated. -/
theorem readFromROM_two_adjacent (ks : Nat → Nat → Nat → Nat) (rom : Nat → Nat)
    (ranges : List EncSection) (sec1 sec2 : EncSection) (offset len : Nat)
    (h1 : findEncSection ranges offset = some sec1)
    (hadj : sec2.address = sec1.address + sec1.length)
    (h2 : findEncSection ranges sec2.address = some sec2)
    (hlo : offset < sec2.address)
    (hhi : sec2.address < offset + len)
    (hend : offset + len ≤ sec2.address + sec2.length) :
    readFromROM ks rom ranges offset len =
      decryptChunk ks sec1 rom offset (sec2.address - offset) ++
      decryptChunk ks sec2 rom sec2.address (offset + len - sec2.address) := by
  have hb1 := findEncSection_some_bounds h1
  have hb2 := findEncSection_some_bounds h2
  obtain ⟨k, rfl⟩ : ∃ k, len = k + 2 := ⟨len - 2, by omega⟩
  unfold readFromROM
  rw [readFromROMAux, if_neg (by omega : ¬(k + 2 = 0))]
  simp only [h1]
  have hn1 : min (k + 2) (sec1.address + sec1.length - offset) = sec2.address - offset := by
    omega
  rw [hn1]
  have hoff : offset + (sec2.address - offset) = sec2.address := by omega
  rw [hoff]
  have hrem : k + 2 - (sec2.address - offset) = offset + (k + 2) - sec2.address := by omega
  rw [hrem]
  rw [readFromROMAux, if_neg (by omega : ¬(offset + (k + 2) - sec2.address = 0))]
  simp only [h2]
  have hn2 : min (offset + (k + 2) - sec2.address) (sec2.address + sec2.length - sec2.address) =
      offset + (k + 2) - sec2.address := by omega
  rw [hn2, Nat.sub_self, readFromROMAux_zero, List.append_nil]

/-- C2: a read window spanning two adjacent encrypted ranges is split at the
range boundary into one sub-read per range and equals the concatenation of the
two decrypted halves; and a window lying outside every encrypted range is
returned as the underlying reader's bytes unmodified. -/
theorem C2_read_split_and_passthrough :
    (∀ (ks : Nat → Nat → Nat → Nat) (rom : Nat → Nat) (ranges : List EncSection)
        (sec1 sec2 : EncSection) (offset len : Nat),
      findEncSection ranges offset = some sec1 →
      sec2.address = sec1.address + sec1.length →
      findEncSection ranges sec2.address = some sec2 →
      offset < sec2.address → sec2.address < offset + len →
      offset + len ≤ sec2.address + sec2.length →
      readFromROM ks rom ranges offset len =
        decryptChunk ks sec1 rom offset (sec2.address - offset) ++
        decryptChunk ks sec2 rom sec2.address (offset + len - sec2.address)) ∧
    (∀ (ks : Nat → Nat → Nat → Nat) (rom : Nat → Nat) (ranges : List EncSection)
        (offset len : Nat),
      (∀ s ∈ ranges, offset + len ≤ s.address ∨ s.address + s.length ≤ offset) →
      readFromROM ks rom ranges offset len = plainChunk rom offset len) := by
  constructor
  · intro ks rom ranges sec1 sec2 offset len h1 hadj h2 hlo hhi hend
    exact readFromROM_two_adjacent ks rom ranges sec1 sec2 offset len h1 hadj h2 hlo hhi hend
  · intro ks rom ranges offset len hdisj
    exact readFromROMAux_plain ks rom ranges len offset len le_rfl hdisj

/-- Witness for C2: the window `[16, 48)` over the two adjacent concrete
ranges `[0, 32)` and `[32, 64)` splits at 32; and the window `[80, 90)`
beyond both ranges passes the underlying bytes through. -/
theorem C2_witness :
    (readFromROM ksW romW rangesW 16 32 =
      decryptChunk ksW secW1 romW 16 (secW2.address - 16) ++
      decryptChunk ksW secW2 romW secW2.address (16 + 32 - secW2.address)) ∧
    readFromROM ksW romW rangesW 80 10 = plainChunk romW 80 10 :=
  ⟨C2_read_split_and_passthrough.1 ksW romW rangesW secW1 secW2 16 32 (by decide) (by decide)
      (by decide) (by decide) (by decide) (by decide),
   C2_read_split_and_passthrough.2 ksW romW rangesW 80 10 (by decide)⟩
